import Mathlib

/-!
Shallow embedding of the two Python tools in `tools/` of the bl4 repository:

* `tools/import_spreadsheet_parts.py` — parses the community weapon-parts
  spreadsheet into typed part records, resolves `(manufacturer, weapon_type)`
  pairs to numeric categories through the fixed `CATEGORY_MAP` table, merges
  the result with an existing catalog (new data wins per category), sorts by
  `(category, index)` and strips the transient `part_type` field.
* `tools/cross_reference_parts.py` — groups part names by their dotted-name
  prefix and reports matched / missing / extra names per group.

Rows of the CSV are modelled as `List String` (the cells produced by the CSV
reader); Python's `IndexError` on out-of-range subscripts is modelled by the
`Except` monad, and the `try/except` around `int(...)` by explicit `Option`
matching, so that the totality of the row loop is a theorem rather than an
assumption.
-/

namespace BL4

/-- A parts-database record, as built by `parse_spreadsheet`
(`import_spreadsheet_parts.py`, lines 156–162): the Python dict
`{"category": …, "index": …, "name": …, "group": …, "part_type": …}`.
The `part_type` field is `Option`al because `main` deletes it from the dict
before persisting (`del p["part_type"]`); `none` models its absence. -/
structure Part where
  category : Int
  index : Int
  name : String
  group : String
  part_ty : Option String
deriving DecidableEq, Repr

/-- Python dict lookup `d[k]` / `d.get(k)` over a literal dict, modelled as
first-match lookup in the association list of the dict's entries. -/
def dictLookup {α β : Type} [DecidableEq α] (k : α) : List (α × β) → Option β
  | [] => none
  | (k', v) :: rest => if k = k' then some v else dictLookup k rest

/-- `CATEGORY_MAP` (`import_spreadsheet_parts.py`, lines 15–57):
(Manufacturer, Weapon Type) → Category ID. -/
def CATEGORY_MAP : List ((String × String) × Int) :=
  [ (("Daedalus", "Pistol"), 2),
    (("Jakobs", "Pistol"), 3),
    (("Tediore", "Pistol"), 4),
    (("Torgue", "Pistol"), 5),
    (("Order", "Pistol"), 6),
    (("Vladof", "Pistol"), 7),
    (("Daedalus", "Shotgun"), 8),
    (("Jakobs", "Shotgun"), 9),
    (("Tediore", "Shotgun"), 10),
    (("Torgue", "Shotgun"), 11),
    (("Bor", "Shotgun"), 12),
    (("Ripper", "Shotgun"), 12),
    (("Maliwan", "Shotgun"), 19),
    (("Daedalus", "Assault Rifle"), 13),
    (("Jakobs", "Assault Rifle"), 14),
    (("Tediore", "Assault Rifle"), 15),
    (("Torgue", "Assault Rifle"), 16),
    (("Vladof", "Assault Rifle"), 17),
    (("Order", "Assault Rifle"), 18),
    (("Daedalus", "SMG"), 20),
    (("Bor", "SMG"), 21),
    (("Ripper", "SMG"), 21),
    (("Vladof", "SMG"), 22),
    (("Maliwan", "SMG"), 23),
    (("Bor", "Sniper"), 25),
    (("Ripper", "Sniper"), 25),
    (("Jakobs", "Sniper"), 26),
    (("Vladof", "Sniper"), 27),
    (("Order", "Sniper"), 28),
    (("Maliwan", "Sniper"), 29),
    (("Vladof", "Heavy"), 244),
    (("Torgue", "Heavy"), 245),
    (("Bor", "Heavy"), 246),
    (("Ripper", "Heavy"), 246),
    (("Maliwan", "Heavy"), 247) ]

/-- `CATEGORY_NAMES` (`import_spreadsheet_parts.py`, lines 60–92):
Category ID → display group name. -/
def CATEGORY_NAMES : List (Int × String) :=
  [ (2, "Daedalus Pistol"),
    (3, "Jakobs Pistol"),
    (4, "Tediore Pistol"),
    (5, "Torgue Pistol"),
    (6, "Order Pistol"),
    (7, "Vladof Pistol"),
    (8, "Daedalus Shotgun"),
    (9, "Jakobs Shotgun"),
    (10, "Tediore Shotgun"),
    (11, "Torgue Shotgun"),
    (12, "Bor Shotgun"),
    (13, "Daedalus Assault Rifle"),
    (14, "Jakobs Assault Rifle"),
    (15, "Tediore Assault Rifle"),
    (16, "Torgue Assault Rifle"),
    (17, "Vladof Assault Rifle"),
    (18, "Order Assault Rifle"),
    (19, "Maliwan Shotgun"),
    (20, "Daedalus SMG"),
    (21, "Bor SMG"),
    (22, "Vladof SMG"),
    (23, "Maliwan SMG"),
    (25, "Bor Sniper"),
    (26, "Jakobs Sniper"),
    (27, "Vladof Sniper"),
    (28, "Order Sniper"),
    (29, "Maliwan Sniper"),
    (244, "Vladof Heavy"),
    (245, "Torgue Heavy"),
    (246, "Bor Heavy"),
    (247, "Maliwan Heavy") ]

/-- The tuple of manufacturer tokens passed to `part_string.startswith`
(`import_spreadsheet_parts.py`, lines 142–144). -/
def WEAPON_TOKENS : List String :=
  ["DAD_", "JAK_", "TED_", "TOR_", "ORD_", "VLA_", "MAL_", "BOR_",
   "RIP_", "COV_", "ATL_"]

/-- Model of Python `str.strip()`: remove leading and trailing whitespace.
(Python strips a slightly larger Unicode whitespace class than
`Char.isWhitespace`; the difference is irrelevant to every claim, which
quantifies over this same function.) -/
def pyStrip (s : String) : String :=
  ⟨((s.data.dropWhile Char.isWhitespace).reverse.dropWhile Char.isWhitespace).reverse⟩

/-- Python `s.startswith(t)` for a single token. -/
def pyStartsWith (s t : String) : Bool :=
  t.data.isPrefixOf s.data

/-- `part_string.startswith((tok₁, …, tokₙ))`: true iff the string starts with
at least one of the tokens. -/
def startsWithAnyTok (s : String) : Bool :=
  WEAPON_TOKENS.any fun t => pyStartsWith s t

/-- Digit string to number, most significant digit first. -/
def digitsToNat (cs : List Char) : Nat :=
  cs.foldl (fun acc c => acc * 10 + (c.toNat - Char.toNat '0')) 0

/-- Model of Python `int(s)` on an already-stripped string: an optional sign
followed by at least one decimal digit yields the value, anything else raises
`ValueError`, modelled as `none`.  (Python's underscore digit grouping and
its internal whitespace tolerance are not modelled; the parser only ever
applies this to `row[2].strip()` and the claims quantify over this same
function.) -/
def pyInt (s : String) : Option Int :=
  match s.data with
  | [] => none
  | '+' :: rest =>
      if rest ≠ [] ∧ rest.all Char.isDigit then some (digitsToNat rest) else none
  | '-' :: rest =>
      if rest ≠ [] ∧ rest.all Char.isDigit then some (-(digitsToNat rest : Int)) else none
  | cs =>
      if cs.all Char.isDigit then some (digitsToNat cs) else none

/-- The mutable state threaded through the row loop of `parse_spreadsheet`:
the `header` variable (a row, or `None` before any header row was seen) and
the accumulating `parts` and `skipped` lists. -/
structure ParseState where
  header : Option (List String)
  parts : List Part
  skipped : List String
deriving DecidableEq, Repr

/-- Python subscript `row[i]`: the cell, or an `IndexError` when out of
range. -/
def getCell (row : List String) (i : Nat) : Except String String :=
  match row.get? i with
  | some s => Except.ok s
  | none => Except.error "IndexError"

/-- One iteration of the `for row in reader` loop of `parse_spreadsheet`
(`import_spreadsheet_parts.py`, lines 110–162).  `continue` is modelled by
returning the state unchanged; appending to `parts` / `skipped` by returning
the extended state.  Unguarded subscripts run in `Except` (they would raise
`IndexError`); the `try/except` around `int(row[2].strip())` catches both
`ValueError` and `IndexError`, hence the explicit `Option`/`get?` matching
there. -/
def parseRowStep (st : ParseState) (row : List String) : Except String ParseState := do
  if row = [] then return st
  let c0 ← getCell row 0
  if c0 = "" then return st
  if c0 = "Manufacturer" then return { st with header := some row }
  if st.header = none then return st
  if row.length < 5 then return st
  let manufacturer := pyStrip c0
  let c1 ← getCell row 1
  let weaponTy := pyStrip c1
  if manufacturer = "" ∨ manufacturer = "Manufacturer" then return st
  match row.get? 2 with
  | none => return st
  | some c2 =>
    match pyInt (pyStrip c2) with
    | none => return st
    | some partId => do
      let partTy ←
        if 3 < row.length then do
          let c3 ← getCell row 3
          pure (pyStrip c3)
        else pure ""
      let partString ←
        if 4 < row.length then do
          let c4 ← getCell row 4
          pure (pyStrip c4)
        else pure ""
      if partString = "" ∨ startsWithAnyTok partString = false then return st
      match dictLookup (manufacturer, weaponTy) CATEGORY_MAP with
      | none =>
          return { st with
                   skipped := st.skipped ++ [s!"{manufacturer} {weaponTy}: {partString}"] }
      | some category =>
          let group := (dictLookup category CATEGORY_NAMES).getD s!"Category {category}"
          return { st with
                   parts := st.parts ++
                     [{ category := category, index := partId, name := partString,
                        group := group, part_ty := some partTy }] }

/-- `parse_spreadsheet` restricted to its row loop: folds `parseRowStep` over
the rows delivered by the CSV reader, starting from `header = None` and empty
accumulators, and returns the collected parts. -/
def parse_spreadsheet (rows : List (List String)) : Except String (List Part) := do
  let st ← rows.foldlM parseRowStep ⟨none, [], []⟩
  return st.parts

/-- The `part_string` value the parser computes for a row (line 139):
`row[4].strip() if len(row) > 4 else ""`. -/
def partStringOf (row : List String) : String :=
  if 4 < row.length then pyStrip ((row.get? 4).getD "") else ""

/-- `int(row[2].strip())` as an optional value (lines 133–136). -/
def partIdOf (row : List String) : Option Int :=
  pyInt (pyStrip ((row.get? 2).getD ""))

/-- `merge_with_existing` (`import_spreadsheet_parts.py`, lines 174–191).
The existing catalog is `none` when `existing_path.exists()` is false, and
`some existing` with `existing` the catalog's `parts` list otherwise.
`new_categories = set(p["category"] for p in new_parts)` is modelled by
membership in the list of categories, `merged = list(new_parts)` followed by
conditional appends by list append of a filter. -/
def merge_with_existing (new_parts : List Part) (existingOpt : Option (List Part)) :
    List Part :=
  match existingOpt with
  | none => new_parts
  | some existing =>
      new_parts ++
        existing.filter fun p => !((new_parts.map Part.category).contains p.category)

/-- The sort key comparison of `parts.sort(key=lambda p: (p["category"],
p["index"]))` (`import_spreadsheet_parts.py`, line 213): Python tuple
comparison `(c₁, i₁) ≤ (c₂, i₂)` lexicographically. -/
def partLe (p q : Part) : Bool :=
  decide (p.category < q.category ∨ (p.category = q.category ∧ p.index ≤ q.index))

/-- The `part_type` removal of `main` (`import_spreadsheet_parts.py`, lines
216–218): `del p["part_type"]` on each record, modelled by setting the
optional field to `none`. -/
def stripPartTy (p : Part) : Part :=
  { p with part_ty := none }

/-- The part-list pipeline of `main` (`import_spreadsheet_parts.py`, lines
205–218): merge the parsed parts with the existing catalog (when present),
sort by `(category, index)`, and delete the `part_type` field from every
record.  The resulting list is the `parts` entry of the persisted output
document. -/
def mainParts (new_parts : List Part) (existingOpt : Option (List Part)) : List Part :=
  ((merge_with_existing new_parts existingOpt).mergeSort partLe).map stripPartTy

/-- `(category, index, name)` triple of a part, the view under which the merge
is compared. -/
def tripleOf (p : Part) : Int × Int × String :=
  (p.category, p.index, p.name)

/-- `matched = ss_parts & our_part_set` of `analyze_patterns`
(`cross_reference_parts.py`, line 106), for one common prefix group:
the spreadsheet's name set intersected with the local name set. -/
def matchedOf (ssParts ourParts : Finset String) : Finset String :=
  ssParts ∩ ourParts

/-- `missing = ss_parts - our_part_set` of `analyze_patterns`
(`cross_reference_parts.py`, line 107). -/
def missingOf (ssParts ourParts : Finset String) : Finset String :=
  ssParts \ ourParts

/-- `extra = our_part_set - ss_parts` of `analyze_patterns`
(`cross_reference_parts.py`, line 108). -/
def extraOf (ssParts ourParts : Finset String) : Finset String :=
  ourParts \ ssParts

/-- Computation rule for `Except` bind on a success value. -/
theorem except_ok_bind {ε α β : Type} (a : α) (f : α → Except ε β) :
    Bind.bind (Except.ok a) f = f a := rfl

/-- Computation rule for `Except` bind on a pure value. -/
theorem except_pure_bind {ε α β : Type} (a : α) (f : α → Except ε β) :
    Bind.bind (Pure.pure a : Except ε α) f = f a := rfl

/-- Characterization of one row-loop iteration: it never raises, and either
leaves the accumulated parts unchanged or appends exactly one record whose
name is the trimmed fifth cell (non-empty and starting with a manufacturer
token) and whose index is the parsed integer of the trimmed third cell. -/
theorem parseRowStep_ok (st : ParseState) (row : List String) :
    ∃ st', parseRowStep st row = Except.ok st' ∧
      (st'.parts = st.parts ∨
        ∃ p, st'.parts = st.parts ++ [p] ∧
          5 ≤ row.length ∧
          p.name = partStringOf row ∧
          p.name ≠ "" ∧
          startsWithAnyTok p.name = true ∧
          partIdOf row = some p.index) := by
  match row with
  | [] => exact ⟨st, rfl, Or.inl rfl⟩
  | c0 :: rest =>
    by_cases hD : (c0 :: rest).length < 5
    · simp only [parseRowStep, getCell, List.get?_cons_zero, except_ok_bind, except_pure_bind,
        if_pos hD]
      split
      · exact ⟨st, rfl, Or.inl rfl⟩
      split
      · exact ⟨st, rfl, Or.inl rfl⟩
      split
      · exact ⟨_, rfl, Or.inl rfl⟩
      split
      · exact ⟨st, rfl, Or.inl rfl⟩
      · exact ⟨st, rfl, Or.inl rfl⟩
    · match c0 :: rest, hD with
      | [_], h => exact absurd (by simp) h
      | [_, _], h => exact absurd (by simp) h
      | [_, _, _], h => exact absurd (by simp) h
      | [_, _, _, _], h => exact absurd (by simp) h
      | c0 :: c1 :: c2 :: c3 :: c4 :: rest', h =>
        simp only [parseRowStep, getCell, List.get?_cons_zero, List.get?_cons_succ,
          except_ok_bind, except_pure_bind, if_neg h]
        rw [if_neg (List.cons_ne_nil _ _)]
        by_cases hA : c0 = ""
        · rw [if_pos hA]; exact ⟨st, rfl, Or.inl rfl⟩
        rw [if_neg hA]
        by_cases hB : c0 = "Manufacturer"
        · rw [if_pos hB]; exact ⟨_, rfl, Or.inl rfl⟩
        rw [if_neg hB]
        by_cases hC : st.header = none
        · rw [if_pos hC]; exact ⟨st, rfl, Or.inl rfl⟩
        rw [if_neg hC]
        by_cases hE : pyStrip c0 = "" ∨ pyStrip c0 = "Manufacturer"
        · rw [if_pos hE]; exact ⟨st, rfl, Or.inl rfl⟩
        rw [if_neg hE]
        have h3 : 3 < (c0 :: c1 :: c2 :: c3 :: c4 :: rest').length := by
          simp only [List.length_cons]; omega
        have h4 : 4 < (c0 :: c1 :: c2 :: c3 :: c4 :: rest').length := by
          simp only [List.length_cons]; omega
        cases hpy : pyInt (pyStrip c2) with
        | none => exact ⟨st, rfl, Or.inl rfl⟩
        | some partId =>
          dsimp only
          rw [if_pos h3, if_pos h4]
          by_cases hG : pyStrip c4 = "" ∨ startsWithAnyTok (pyStrip c4) = false
          · rw [if_pos hG]; exact ⟨st, rfl, Or.inl rfl⟩
          rw [if_neg hG]
          simp only [not_or, Bool.not_eq_false] at hG
          cases hcat : dictLookup (pyStrip c0, pyStrip c1) CATEGORY_MAP with
          | none => exact ⟨_, rfl, Or.inl rfl⟩
          | some category =>
            refine ⟨_, rfl, Or.inr ⟨_, rfl, ?_, ?_, ?_, ?_, ?_⟩⟩
            · simp only [List.length_cons]; omega
            · simp only [partStringOf, List.get?_cons_succ, List.get?_cons_zero]
              rw [if_pos h4]
              rfl
            · exact hG.1
            · exact hG.2
            · simp only [partIdOf, List.get?_cons_succ, List.get?_cons_zero, Option.getD]
              exact hpy

/-- C1 counterexample: `parse_spreadsheet` accepts a row whose part name
`"DAD_foo"` contains no `'.'` — after a header row, the row
`["Daedalus", "Pistol", "1", "Barrel", "DAD_foo"]` produces a record, so the
import-mode parser does not require the part name to contain `'.'`. -/
theorem import_dot_not_required :
    parse_spreadsheet [["Manufacturer"], ["Daedalus", "Pistol", "1", "Barrel", "DAD_foo"]]
      = Except.ok [⟨2, 1, "DAD_foo", "Daedalus Pistol", some "Barrel"⟩] ∧
    ("DAD_foo".data.contains '.') = false :=
  ⟨rfl, rfl⟩

/-- C1 (amended): whenever one row-loop iteration of `parse_spreadsheet`
appends a record, the record's name is the trimmed fifth cell, is non-empty,
and starts with one of the fixed manufacturer-prefix tokens; and a row whose
trimmed fifth cell is empty or fails the token test never appends a record.
(The `'.'`-containment requirement of the original claim is not checked by
the import-mode parser — see `import_dot_not_required`.) -/
theorem import_name_conditions (st : ParseState) (row : List String) (st' : ParseState)
    (hstep : parseRowStep st row = Except.ok st') :
    (∀ p, st'.parts = st.parts ++ [p] →
        p.name = partStringOf row ∧ p.name ≠ "" ∧ startsWithAnyTok p.name = true) ∧
    ((partStringOf row = "" ∨ startsWithAnyTok (partStringOf row) = false) →
        st'.parts = st.parts) := by
  obtain ⟨st'', hok, hcase⟩ := parseRowStep_ok st row
  rw [hstep] at hok
  injection hok with hok
  subst hok
  constructor
  · intro p hp
    rcases hcase with hsame | ⟨q, hq, _, hname, hne, hsw, _⟩
    · rw [hsame] at hp
      exact absurd hp.symm (by simp)
    · rw [hq] at hp
      have hqp : q = p := by
        have h := List.append_cancel_left hp
        injection h
      subst hqp
      exact ⟨hname, hne, hsw⟩
  · intro hbad
    rcases hcase with hsame | ⟨q, hq, _, hname, hne, hsw, _⟩
    · exact hsame
    · exfalso
      rcases hbad with hb | hb
      · exact hne (hname.trans hb)
      · rw [hname] at hsw
        rw [hsw] at hb
        cases hb

/-- Witness for `import_name_conditions` at the header-then-data scenario of
the spec: the produced record's name is the trimmed fifth cell, non-empty,
and token-prefixed. -/
theorem import_name_conditions_witness :
    (⟨3, 5, "JAK_Barrel_01.json", "Jakobs Pistol", some "Barrel"⟩ : Part).name
        = partStringOf ["Jakobs", "Pistol", "5", "Barrel", "JAK_Barrel_01.json"] ∧
    (⟨3, 5, "JAK_Barrel_01.json", "Jakobs Pistol", some "Barrel"⟩ : Part).name ≠ "" ∧
    startsWithAnyTok
        (⟨3, 5, "JAK_Barrel_01.json", "Jakobs Pistol", some "Barrel"⟩ : Part).name = true :=
  (import_name_conditions ⟨some ["Manufacturer"], [], []⟩
      ["Jakobs", "Pistol", "5", "Barrel", "JAK_Barrel_01.json"]
      ⟨some ["Manufacturer"],
        [⟨3, 5, "JAK_Barrel_01.json", "Jakobs Pistol", some "Barrel"⟩], []⟩
      (by rfl)).1
    ⟨3, 5, "JAK_Barrel_01.json", "Jakobs Pistol", some "Barrel"⟩ (by rfl)

/-- C2: for every category `c` occurring in `new_parts`, a part of the
existing catalog with category `c` appears in the merge output only if it is
itself one of the new parts; and every existing part whose category does not
occur in `new_parts` is retained verbatim in the output. -/
theorem merge_category_replacement (new_parts existing : List Part) (c : Int)
    (hc : c ∈ new_parts.map Part.category) :
    (∀ p, p ∈ existing → p.category = c →
        p ∈ merge_with_existing new_parts (some existing) → p ∈ new_parts) ∧
    (∀ p, p ∈ existing → p.category ∉ new_parts.map Part.category →
        p ∈ merge_with_existing new_parts (some existing)) := by
  constructor
  · intro p _ hpc hpm
    rcases List.mem_append.1 hpm with hnew | hkept
    · exact hnew
    · have hpred := List.of_mem_filter hkept
      exfalso
      rw [hpc] at hpred
      simp only [List.contains, Bool.not_eq_true', Bool.eq_false_iff, ne_eq,
        List.elem_iff] at hpred
      exact hpred hc
  · intro p hp hpc
    apply List.mem_append.2
    right
    apply List.mem_filter.2
    refine ⟨hp, ?_⟩
    simpa [List.contains, List.elem_iff] using hpc

/-- Witness for `merge_category_replacement`: new data covers category 3, so
the existing category-4 part is retained in the merge output. -/
theorem merge_category_replacement_witness :
    (⟨4, 1, "OLD_cat4", "Tediore Pistol", none⟩ : Part) ∈
      merge_with_existing [⟨3, 5, "JAK_new", "Jakobs Pistol", none⟩]
        (some [⟨3, 9, "OLD_cat3", "Jakobs Pistol", none⟩,
               ⟨4, 1, "OLD_cat4", "Tediore Pistol", none⟩]) :=
  (merge_category_replacement [⟨3, 5, "JAK_new", "Jakobs Pistol", none⟩]
      [⟨3, 9, "OLD_cat3", "Jakobs Pistol", none⟩,
       ⟨4, 1, "OLD_cat4", "Tediore Pistol", none⟩]
      3 (by decide)).2
    ⟨4, 1, "OLD_cat4", "Tediore Pistol", none⟩ (by decide) (by decide)

/-- C3: merging the new parts against an already-merged catalog yields the
same set of `(category, index, name)` triples as the single merge. -/
theorem merge_idempotent (new_parts existing : List Part) :
    ((merge_with_existing new_parts
        (some (merge_with_existing new_parts (some existing)))).map tripleOf).toFinset
      = ((merge_with_existing new_parts (some existing)).map tripleOf).toFinset := by
  have hlist : merge_with_existing new_parts
      (some (merge_with_existing new_parts (some existing)))
      = merge_with_existing new_parts (some existing) := by
    simp only [merge_with_existing]
    rw [List.filter_append]
    have h1 : new_parts.filter
        (fun p => !((new_parts.map Part.category).contains p.category)) = [] := by
      rw [List.filter_eq_nil_iff]
      intro p hp
      simp [List.contains, List.elem_iff]
      exact ⟨p, hp, rfl⟩
    have h2 : (existing.filter
          (fun p => !((new_parts.map Part.category).contains p.category))).filter
          (fun p => !((new_parts.map Part.category).contains p.category))
        = existing.filter (fun p => !((new_parts.map Part.category).contains p.category)) := by
      rw [List.filter_filter]
      congr 1
      funext a
      rw [Bool.and_self]
    rw [h1, h2, List.nil_append]
  rw [hlist]

/-- C4: the persisted parts list is non-decreasing in the lexicographic order
on `(category, index)`: adjacent elements have strictly increasing category,
or equal category and non-decreasing index. -/
theorem output_sorted (new_parts : List Part) (existingOpt : Option (List Part)) :
    List.Chain' (fun p q : Part =>
        p.category < q.category ∨ (p.category = q.category ∧ p.index ≤ q.index))
      (mainParts new_parts existingOpt) := by
  have htrans : ∀ a b c : Part, partLe a b → partLe b c → partLe a c := by
    intro a b c hab hbc
    simp only [partLe, decide_eq_true_eq] at *
    omega
  have htotal : ∀ a b : Part, partLe a b || partLe b a := by
    intro a b
    simp only [partLe, Bool.or_eq_true, decide_eq_true_eq]
    omega
  have hs : ((merge_with_existing new_parts existingOpt).mergeSort partLe).Pairwise
      (fun p q => partLe p q) :=
    List.sorted_mergeSort htrans htotal (merge_with_existing new_parts existingOpt)
  apply List.Pairwise.chain'
  rw [mainParts]
  apply hs.map
  intro a b hab
  simp only [partLe, decide_eq_true_eq] at hab
  simpa only [stripPartTy] using hab

/-- C5: per common prefix group, `matched + missing` counts the spreadsheet's
name set and `matched + extra` counts the local name set. -/
theorem cross_reference_counts (ssParts ourParts : Finset String) :
    (matchedOf ssParts ourParts).card + (missingOf ssParts ourParts).card = ssParts.card ∧
    (matchedOf ssParts ourParts).card + (extraOf ssParts ourParts).card = ourParts.card := by
  constructor
  · simp only [matchedOf, missingOf]
    exact Finset.card_inter_add_card_sdiff ssParts ourParts
  · have h := Finset.card_inter_add_card_sdiff ourParts ssParts
    rw [Finset.inter_comm] at h
    simp only [matchedOf, extraOf]
    exact h

/-- C6: the `"Bor"` and `"Ripper"` alias spellings resolve to the same
category id for every weapon type both cover, and in particular Shotgun → 12,
SMG → 21, Sniper → 25, Heavy → 246 under either spelling. -/
theorem alias_same_category :
    (∀ t : String,
        (dictLookup ("Bor", t) CATEGORY_MAP).isSome = true →
        (dictLookup ("Ripper", t) CATEGORY_MAP).isSome = true →
        dictLookup ("Bor", t) CATEGORY_MAP = dictLookup ("Ripper", t) CATEGORY_MAP) ∧
    (dictLookup ("Bor", "Shotgun") CATEGORY_MAP = some 12 ∧
     dictLookup ("Ripper", "Shotgun") CATEGORY_MAP = some 12) ∧
    (dictLookup ("Bor", "SMG") CATEGORY_MAP = some 21 ∧
     dictLookup ("Ripper", "SMG") CATEGORY_MAP = some 21) ∧
    (dictLookup ("Bor", "Sniper") CATEGORY_MAP = some 25 ∧
     dictLookup ("Ripper", "Sniper") CATEGORY_MAP = some 25) ∧
    (dictLookup ("Bor", "Heavy") CATEGORY_MAP = some 246 ∧
     dictLookup ("Ripper", "Heavy") CATEGORY_MAP = some 246) := by
  refine ⟨?_, ⟨by decide, by decide⟩, ⟨by decide, by decide⟩,
    ⟨by decide, by decide⟩, ⟨by decide, by decide⟩⟩
  intro t hb _
  by_cases h1 : t = "Shotgun"
  · subst h1; decide
  by_cases h2 : t = "SMG"
  · subst h2; decide
  by_cases h3 : t = "Sniper"
  · subst h3; decide
  by_cases h4 : t = "Heavy"
  · subst h4; decide
  · exfalso
    rw [show dictLookup ("Bor", t) CATEGORY_MAP = none from by
      simp [dictLookup, CATEGORY_MAP, Prod.mk.injEq, h1, h2, h3, h4]] at hb
    simp at hb

/-- Witness for `alias_same_category` at weapon type `"Shotgun"`. -/
theorem alias_same_category_witness :
    dictLookup ("Bor", "Shotgun") CATEGORY_MAP
      = dictLookup ("Ripper", "Shotgun") CATEGORY_MAP :=
  alias_same_category.1 "Shotgun" (by decide) (by decide)

/-- C7: whenever one row-loop iteration of `parse_spreadsheet` appends a
record, the record's index is the integer value of the trimmed third cell;
and when the trimmed third cell is not a valid integer string, no record is
appended (the `try/except` turns the `ValueError` into a silent skip). -/
theorem part_id_from_cell (st : ParseState) (row : List String) (st' : ParseState)
    (hstep : parseRowStep st row = Except.ok st') :
    (∀ p, st'.parts = st.parts ++ [p] → partIdOf row = some p.index) ∧
    (partIdOf row = none → st'.parts = st.parts) := by
  obtain ⟨st'', hok, hcase⟩ := parseRowStep_ok st row
  rw [hstep] at hok
  injection hok with hok
  subst hok
  constructor
  · intro p hp
    rcases hcase with hsame | ⟨q, hq, _, _, _, _, hid⟩
    · rw [hsame] at hp
      exact absurd hp.symm (by simp)
    · rw [hq] at hp
      have hqp : q = p := by
        have h := List.append_cancel_left hp
        injection h
      subst hqp
      exact hid
  · intro hbad
    rcases hcase with hsame | ⟨q, _, _, _, _, _, hid⟩
    · exact hsame
    · rw [hbad] at hid
      cases hid

/-- Witness for `part_id_from_cell`: the record produced from the Jakobs row
has index `int("5") = 5`. -/
theorem part_id_from_cell_witness :
    partIdOf ["Jakobs", "Pistol", "5", "Barrel", "JAK_Barrel_01.json"]
      = some ((⟨3, 5, "JAK_Barrel_01.json", "Jakobs Pistol", some "Barrel"⟩ : Part).index) :=
  (part_id_from_cell ⟨some ["Manufacturer"], [], []⟩
      ["Jakobs", "Pistol", "5", "Barrel", "JAK_Barrel_01.json"]
      ⟨some ["Manufacturer"],
        [⟨3, 5, "JAK_Barrel_01.json", "Jakobs Pistol", some "Barrel"⟩], []⟩
      (by rfl)).1
    ⟨3, 5, "JAK_Barrel_01.json", "Jakobs Pistol", some "Barrel"⟩ (by rfl)

/-- C8: every record of the persisted parts list has no `part_type` field,
and the stripping step changes no other field of a record. -/
theorem strip_removes_part_ty (new_parts : List Part) (existingOpt : Option (List Part)) :
    (∀ p, p ∈ mainParts new_parts existingOpt → p.part_ty = none) ∧
    (∀ q : Part, (stripPartTy q).category = q.category ∧ (stripPartTy q).index = q.index ∧
        (stripPartTy q).name = q.name ∧ (stripPartTy q).group = q.group) := by
  constructor
  · intro p hp
    rw [mainParts] at hp
    obtain ⟨q, _, rfl⟩ := List.mem_map.1 hp
    rfl
  · intro q
    exact ⟨rfl, rfl, rfl, rfl⟩

/-- Witness for `strip_removes_part_ty`: the single record surviving the
pipeline carries no `part_type`. -/
theorem strip_removes_part_ty_witness :
    (⟨3, 5, "JAK_new", "Jakobs Pistol", none⟩ : Part).part_ty = none :=
  (strip_removes_part_ty [⟨3, 5, "JAK_new", "Jakobs Pistol", some "Barrel"⟩] none).1
    ⟨3, 5, "JAK_new", "Jakobs Pistol", none⟩
    (by simp [mainParts, merge_with_existing, stripPartTy])

/-- C9: the merge output always extends `new_parts` on the right: every newly
parsed part appears in the output unchanged and in its original position,
whatever the existing catalog contains (or whether it exists). -/
theorem merge_preserves_new (new_parts : List Part) (existingOpt : Option (List Part)) :
    ∃ rest, merge_with_existing new_parts existingOpt = new_parts ++ rest := by
  cases existingOpt with
  | none => exact ⟨[], (List.append_nil _).symm⟩
  | some existing => exact ⟨_, rfl⟩

/-- C10: the row loop of `parse_spreadsheet` is total — for every finite
sequence of rows of arbitrary cells it returns a list of parts, never an
`IndexError` or uncaught `ValueError`. -/
theorem parser_total (rows : List (List String)) :
    ∃ parts, parse_spreadsheet rows = Except.ok parts := by
  suffices h : ∀ st, ∃ st', rows.foldlM parseRowStep st = Except.ok st' by
    obtain ⟨st', hst⟩ := h ⟨none, [], []⟩
    refine ⟨st'.parts, ?_⟩
    simp only [parse_spreadsheet, hst, except_ok_bind]
    rfl
  induction rows with
  | nil => intro st; exact ⟨st, rfl⟩
  | cons r rs ih =>
    intro st
    obtain ⟨st1, h1, _⟩ := parseRowStep_ok st r
    obtain ⟨st2, h2⟩ := ih st1
    refine ⟨st2, ?_⟩
    rw [List.foldlM_cons, h1, except_ok_bind, h2]

end BL4
